import Mathlib

/-!
# Scalar and batch arithmetic primitives, the benchmark runner and the driver

A shallow embedding of `src/main.cpp`.

* 32-bit floats are an arbitrary type `α` carrying a multiplication and an
  addition (`FloatArith`); no algebraic law is assumed of either, so every
  statement holds for the program's own float operations.
* A `float*` is an address (a natural number, counted in elements); the null
  pointer is address `0`.  Memory is a total map from addresses to values and
  `p[i]` is the cell at address `p + i`.
* A `for` loop over `0 ≤ i < size` is a left fold over `List.range size`.
-/

set_option autoImplicit false

universe u

/-- The program's `float` arithmetic: the binary operations `*` and `+`, left
uninterpreted. -/
class FloatArith (α : Type u) extends Mul α, Add α

instance : FloatArith Int := {}

instance : FloatArith Nat := {}

/-! ## Memory -/

/-- Memory: one `float` cell per address. -/
def Mem (α : Type u) : Type u := Nat → α

namespace Mem

variable {α : Type u}

/-- The store `*p = v`. -/
def write (m : Mem α) (p : Nat) (v : α) : Mem α :=
  fun q => if q = p then v else m q

end Mem

/-! ## Scalar primitives (`main.cpp` lines 9-13, 21-25, 33-37) -/

namespace Scalar

variable {α : Type u}

/-- `void Multiply(const float a, const float b, float* result)`. -/
def Multiply [FloatArith α] (a b : α) (result : Nat) (m : Mem α) : Mem α :=
  if result ≠ 0 then m.write result (a * b) else m

/-- `void Add(const float a, const float b, float* result)`. -/
def Add [FloatArith α] (a b : α) (result : Nat) (m : Mem α) : Mem α :=
  if result ≠ 0 then m.write result (a + b) else m

/-- `void FusedMulAdd(const float a, const float b, const float c, float* result)`. -/
def FusedMulAdd [FloatArith α] (a b c : α) (result : Nat) (m : Mem α) : Mem α :=
  if result ≠ 0 then m.write result (a * b + c) else m

end Scalar

/-! ## Batch primitives (`main.cpp` lines 15-19, 27-31, 39-43) -/

namespace Batch

variable {α : Type u}

/-- `void Multiply(const float* a, const float* b, float* result, size_t size)`. -/
def Multiply [FloatArith α] (a b result size : Nat) (m : Mem α) : Mem α :=
  (List.range size).foldl
    (fun m i => m.write (result + i) (m (a + i) * m (b + i))) m

/-- `void Add(const float* a, const float* b, float* result, size_t size)`. -/
def Add [FloatArith α] (a b result size : Nat) (m : Mem α) : Mem α :=
  (List.range size).foldl
    (fun m i => m.write (result + i) (m (a + i) + m (b + i))) m

/-- `void FusedMulAdd(const float* a, const float* b, const float* c,
float* result, size_t size)`. -/
def FusedMulAdd [FloatArith α] (a b c result size : Nat) (m : Mem α) : Mem α :=
  (List.range size).foldl
    (fun m i => m.write (result + i) (m (a + i) * m (b + i) + m (c + i))) m

end Batch

/-- The output array starting at `dst` never overwrites an element of the input
array starting at `src` before the loop has read it: no cell `dst[j]` written
in an earlier iteration `j < i` is the cell `src[i]`.  It holds when the two
arrays are disjoint and when they are the same array. -/
def NoClobber (dst src size : Nat) : Prop :=
  ∀ i j, i < size → j < i → dst + j ≠ src + i

/-- Two arrays of `size` elements that share no cell. -/
def Disjoint2 (p q size : Nat) : Prop :=
  p + size ≤ q ∨ q + size ≤ p

/-! ## Benchmark runner (`main.cpp` lines 45-56) -/

/-- The program's `double` arithmetic as the runner uses it: the constant `0`,
`+`, `/` and the conversion of an `int`, all left uninterpreted. -/
class DoubleArith (D : Type) extends Zero D, Add D, Div D, IntCast D

instance : DoubleArith ℚ := {}

instance : DoubleArith Int := {}

/-- What the runner does that can be observed from outside: a clock reading or
an invocation of the timed operation. -/
inductive Event where
  | now
  | call
  deriving DecidableEq, Repr

/-- The clock: `reading k` is the time point returned by the `k`-th call of
`high_resolution_clock::now()` (counted from `0`), and `elapsedMs start stop`
is `duration<double, std::milli>(stop - start).count()`. -/
structure Clock (T D : Type) where
  reading : Nat → T
  elapsedMs : T → T → D

/-- State threaded through the runner: the state `world` the timed operation
acts on, the number of clock readings taken so far, and the record of events. -/
structure BenchState (σ : Type u) where
  world : σ
  reads : Nat
  trace : List Event

namespace Benchmark

variable {σ : Type u} {T D : Type}

/-- `std::chrono::high_resolution_clock::now()`. -/
def now (clk : Clock T D) (s : BenchState σ) : T × BenchState σ :=
  (clk.reading s.reads, { s with reads := s.reads + 1, trace := s.trace ++ [Event.now] })

/-- The call `f()`. -/
def invoke (f : σ → σ) (s : BenchState σ) : BenchState σ :=
  { s with world := f s.world, trace := s.trace ++ [Event.call] }

/-- One pass through the body of the `for` loop, on the pair
`(total_ms, state)`. -/
def body [DoubleArith D] (clk : Clock T D) (f : σ → σ)
    (acc : D × BenchState σ) : D × BenchState σ :=
  let start := now clk acc.2
  let s2 := invoke f start.2
  let stop := now clk s2
  (acc.1 + clk.elapsedMs start.1 stop.1, stop.2)

/-- The loop `for (int i = 0; i < repeats; ++i)` started with `total_ms = 0`: it
runs `repeats` times, and not at all when `repeats ≤ 0`. -/
def loop [DoubleArith D] (clk : Clock T D) (f : σ → σ) (repeats : Int)
    (s : BenchState σ) : D × BenchState σ :=
  (List.range repeats.toNat).foldl (fun acc _ => body clk f acc) (0, s)

/-- The default argument of `repeats` in `double Benchmark(Func f, int repeats = 3)`. -/
def defaultRepeats : Int := 3

end Benchmark

/-- `double Benchmark(Func f, int repeats)`: the returned mean and the final
state. -/
def Benchmark {σ : Type u} {T D : Type} [DoubleArith D] (clk : Clock T D)
    (f : σ → σ) (repeats : Int) (s : BenchState σ) : D × BenchState σ :=
  let r := Benchmark.loop clk f repeats s
  (r.1 / (repeats : D), r.2)

/-- The call `Benchmark(f)`, which leaves `repeats` to its default argument. -/
def BenchmarkDefault {σ : Type u} {T D : Type} [DoubleArith D] (clk : Clock T D)
    (f : σ → σ) (s : BenchState σ) : D × BenchState σ :=
  Benchmark clk f Benchmark.defaultRepeats s

/-- The elapsed time of repetition `k` (counted from `0`) of a run that starts
when `r` clock readings have been taken: readings `r + 2k` and `r + 2k + 1`. -/
def elapsedOf {T D : Type} (clk : Clock T D) (r k : Nat) : D :=
  clk.elapsedMs (clk.reading (r + 2 * k)) (clk.reading (r + 2 * k + 1))

/-- The events of one repetition: read the clock, call, read the clock. -/
def repetition : List Event := [Event.now, Event.call, Event.now]

/-! ## Driver: batch phases (`main.cpp` lines 80-90) -/

namespace Driver

variable {α : Type u} {T D : Type}

/-- `Benchmark([&] { Multiply(a.data(), b.data(), result.data(), size); }, repeats)`. -/
def mulPhase [FloatArith α] [DoubleArith D] (clk : Clock T D)
    (a b result size : Nat) (repeats : Int) (s : BenchState (Mem α)) :
    D × BenchState (Mem α) :=
  Benchmark clk (Batch.Multiply a b result size) repeats s

/-- `Benchmark([&] { Add(result.data(), c.data(), result.data(), size); }, repeats)`. -/
def addPhase [FloatArith α] [DoubleArith D] (clk : Clock T D)
    (c result size : Nat) (repeats : Int) (s : BenchState (Mem α)) :
    D × BenchState (Mem α) :=
  Benchmark clk (Batch.Add result c result size) repeats s

/-- `Benchmark([&] { FusedMulAdd(a.data(), b.data(), c.data(), result.data(), size); },
repeats)`. -/
def fusedPhase [FloatArith α] [DoubleArith D] (clk : Clock T D)
    (a b c result size : Nat) (repeats : Int) (s : BenchState (Mem α)) :
    D × BenchState (Mem α) :=
  Benchmark clk (Batch.FusedMulAdd a b c result size) repeats s

end Driver

/-! ## Driver: argument scan (`main.cpp` lines 60-68) -/

/-- The two exceptions of the numeric conversions `std::stoull` and `std::stoi`. -/
inductive ParseError where
  | invalid_argument
  | out_of_range
  deriving DecidableEq, Repr

/-- The settings `size_t size` and `int repeats`. -/
structure Config where
  size : Nat
  repeats : Int
  deriving DecidableEq, Repr

/-- The white space skipped by `strtoull` and `strtol` (`isspace` in the "C"
locale). -/
def isspace (c : Char) : Bool :=
  c = ' ' || c = '\t' || c = '\n' || c = Char.ofNat 11 || c = Char.ofNat 12 || c = '\r'

/-- The subject sequence of a base-10 conversion: whether a minus sign was read,
and the digits read. -/
structure Scanned where
  neg : Bool
  digits : List Char
  deriving DecidableEq, Repr

/-- The scan common to `strtoull` and `strtol` in base 10: skip leading white
space, take an optional sign, then the longest run of decimal digits; what
follows the digits is not looked at. -/
def scanInteger (s : String) : Scanned :=
  match s.toList.dropWhile isspace with
  | '-' :: r => ⟨true, r.takeWhile Char.isDigit⟩
  | '+' :: r => ⟨false, r.takeWhile Char.isDigit⟩
  | cs => ⟨false, cs.takeWhile Char.isDigit⟩

/-- The number a run of decimal digits denotes. -/
def magnitude (ds : List Char) : Nat :=
  ds.foldl (fun acc d => 10 * acc + (d.toNat - '0'.toNat)) 0

/-- The library function `std::stoull(str)` (base 10, 64-bit `unsigned long long`),
after the C++ standard: `invalid_argument` when no digit is read, `out_of_range`
when the digits exceed `ULLONG_MAX`, and a minus sign negates modulo `2^64`. -/
def stoull (s : String) : Except ParseError Nat :=
  let sc := scanInteger s
  if sc.digits.isEmpty then .error .invalid_argument
  else if 2 ^ 64 ≤ magnitude sc.digits then .error .out_of_range
  else .ok (if sc.neg then (2 ^ 64 - magnitude sc.digits) % 2 ^ 64 else magnitude sc.digits)

/-- The library function `std::stoi(str)` (base 10, 32-bit `int`), after the C++
standard: `invalid_argument` when no digit is read, `out_of_range` when the
value is not an `int`. -/
def stoi (s : String) : Except ParseError Int :=
  let sc := scanInteger s
  if sc.digits.isEmpty then .error .invalid_argument
  else
    let v : Int := if sc.neg then -(magnitude sc.digits : Int) else (magnitude sc.digits : Int)
    if v < -(2 ^ 31) ∨ 2 ^ 31 - 1 < v then .error .out_of_range else .ok v

namespace Driver

/-- The loop `for (int i = 1; i < argc; ++i)` from index `i` on, with `argc` the
length of `argv`; `argv[++i]` is the token after the flag, and the loop's own
`++i` then steps over it. -/
def parseLoop (argv : List String) (i : Nat) (cfg : Config) : Except ParseError Config :=
  if i < argv.length then
    if argv.getD i "" = "--size" ∧ i + 1 < argv.length then
      match stoull (argv.getD (i + 1) "") with
      | .error e => .error e
      | .ok v => parseLoop argv (i + 1 + 1) { cfg with size := v }
    else if argv.getD i "" = "--repeats" ∧ i + 1 < argv.length then
      match stoi (argv.getD (i + 1) "") with
      | .error e => .error e
      | .ok v => parseLoop argv (i + 1 + 1) { cfg with repeats := v }
    else parseLoop argv (i + 1) cfg
  else .ok cfg
termination_by argv.length - i

/-- The defaults `size_t size = 10'000; int repeats = 10'000;`. -/
def defaults : Config := { size := 10000, repeats := 10000 }

/-- Argument resolution of `main`: the scan of `argv[1 .. argc)` from the
defaults. -/
def parseArgs (argv : List String) : Except ParseError Config :=
  parseLoop argv 1 defaults

/-- What `main` does after the scan, in order. -/
inductive Step where
  | allocate (size : Nat)
  | measure (repeats : Int)
  | report
  | terminate (e : ParseError)
  deriving DecidableEq, Repr

/-- The course of `main`: an exception of the scan is not caught and ends the
process there; otherwise the buffers are allocated (line 70), the measurements
run (lines 80-108) and the report is printed (lines 116-148). -/
def run (argv : List String) : List Step :=
  match parseArgs argv with
  | .error e => [Step.terminate e]
  | .ok cfg => [Step.allocate cfg.size, Step.measure cfg.repeats, Step.report]

/-- The scan as the specification words it, on the tokens after the program
name: a flag that has a following token consumes it as its value, every other
token is skipped. -/
def resolve : List String → Config → Except ParseError Config
  | [], cfg => .ok cfg
  | [_], cfg => .ok cfg
  | t :: v :: rest, cfg =>
    if t = "--size" then
      match stoull v with
      | .error e => .error e
      | .ok n => resolve rest { cfg with size := n }
    else if t = "--repeats" then
      match stoi v with
      | .error e => .error e
      | .ok n => resolve rest { cfg with repeats := n }
    else resolve (v :: rest) cfg

/-- A well-formed decimal integer, as the specification words it: a non-empty
string of decimal digits. -/
def isDecimalInteger (s : String) : Bool :=
  !s.toList.isEmpty && s.toList.all Char.isDigit

/-- A token is a flag of the driver. -/
def isFlag (t : String) : Bool :=
  t = "--size" || t = "--repeats"

/-- A token the numeric conversions reject for want of a digit: after optional
white space and sign it does not start with a decimal digit. -/
def lacksNumber (t : String) : Bool :=
  (scanInteger t).digits.isEmpty

end Driver

/-! ## A concrete instance, for evaluation -/

/-- A clock whose `k`-th reading is `k`, with the elapsed time of two readings
their difference. -/
def tickClock : Clock Nat Int :=
  { reading := fun k => k, elapsedMs := fun start stop => (stop : Int) - (start : Int) }

/-- A memory holding `q + 1` at every address `q`. -/
def rampMem : Mem Int := fun q => (q : Int) + 1

/-! # Theorems -/

/-! ## Memory and the batch loops -/

section Loops

variable {α : Type u}

theorem Mem.write_same (m : Mem α) (p : Nat) (v : α) : m.write p v p = v := by
  simp [Mem.write]

theorem Mem.write_other (m : Mem α) (p q : Nat) (v : α) (h : q ≠ p) :
    m.write p v q = m q := by
  simp [Mem.write, h]

theorem noClobber_of_disjoint {dst src size : Nat} (h : Disjoint2 dst src size) :
    NoClobber dst src size := by
  intro i j hi hj
  rcases h with h | h <;> omega

theorem noClobber_self (p size : Nat) : NoClobber p p size := by
  intro i j _ hj
  omega

/-- A loop writing `dst[i]` in iteration `i` leaves every cell outside
`dst[0 .. n)` as it was. -/
theorem writeLoop_frame (dst : Nat) (g : Mem α → Nat → α) (n : Nat) (m : Mem α)
    (q : Nat) (hq : ∀ j, j < n → q ≠ dst + j) :
    (List.range n).foldl (fun m i => m.write (dst + i) (g m i)) m q = m q := by
  induction n with
  | zero => rfl
  | succ k ih =>
    rw [List.range_succ, List.foldl_append]
    simp only [List.foldl_cons, List.foldl_nil]
    rw [Mem.write_other _ _ _ _ (hq k (Nat.lt_succ_self k))]
    exact ih (fun j hj => hq j (Nat.lt_succ_of_lt hj))

/-- A loop writing `dst[i]` in iteration `i` leaves in `dst[i]` the value
computed from the memory as it stood after the first `i` iterations. -/
theorem writeLoop_at (dst : Nat) (g : Mem α → Nat → α) (n : Nat) (m : Mem α)
    (i : Nat) (hi : i < n) :
    (List.range n).foldl (fun m i => m.write (dst + i) (g m i)) m (dst + i)
      = g ((List.range i).foldl (fun m i => m.write (dst + i) (g m i)) m) i := by
  induction n with
  | zero => omega
  | succ k ih =>
    rw [List.range_succ, List.foldl_append]
    simp only [List.foldl_cons, List.foldl_nil]
    by_cases hik : i = k
    · subst hik
      rw [Mem.write_same]
    · rw [Mem.write_other _ _ _ _ (by omega)]
      exact ih (by omega)

/-- An input cell `src[i]` still holds its initial value when iteration `i`
reads it. -/
theorem writeLoop_src (dst src : Nat) (g : Mem α → Nat → α) (n : Nat) (m : Mem α)
    (h : NoClobber dst src n) (i : Nat) (hi : i < n) :
    (List.range i).foldl (fun m i => m.write (dst + i) (g m i)) m (src + i)
      = m (src + i) :=
  writeLoop_frame dst g i m (src + i) (fun j hj => (h i j hi hj).symm)

/-- An operation that leaves the cells outside `dst[0 .. size)` alone still does
so when repeated. -/
theorem iterate_frame (F : Mem α → Mem α) (dst size : Nat)
    (hF : ∀ m q, (∀ j, j < size → q ≠ dst + j) → F m q = m q)
    (k : Nat) (m : Mem α) (q : Nat) (hq : ∀ j, j < size → q ≠ dst + j) :
    F^[k] m q = m q := by
  induction k with
  | zero => rfl
  | succ k ih => rw [Function.iterate_succ_apply', hF _ q hq, ih]

variable [FloatArith α]

theorem Batch.Multiply_at (a b result size : Nat) (m : Mem α)
    (ha : NoClobber result a size) (hb : NoClobber result b size)
    (i : Nat) (hi : i < size) :
    Batch.Multiply a b result size m (result + i) = m (a + i) * m (b + i) := by
  unfold Batch.Multiply
  rw [writeLoop_at result (fun m i => m (a + i) * m (b + i)) size m i hi]
  rw [writeLoop_src result a _ size m ha i hi, writeLoop_src result b _ size m hb i hi]

theorem Batch.Multiply_frame (a b result size : Nat) (m : Mem α) (q : Nat)
    (hq : ∀ j, j < size → q ≠ result + j) :
    Batch.Multiply a b result size m q = m q :=
  writeLoop_frame result (fun m i => m (a + i) * m (b + i)) size m q hq

theorem Batch.Add_at (a b result size : Nat) (m : Mem α)
    (ha : NoClobber result a size) (hb : NoClobber result b size)
    (i : Nat) (hi : i < size) :
    Batch.Add a b result size m (result + i) = m (a + i) + m (b + i) := by
  unfold Batch.Add
  rw [writeLoop_at result (fun m i => m (a + i) + m (b + i)) size m i hi]
  rw [writeLoop_src result a _ size m ha i hi, writeLoop_src result b _ size m hb i hi]

theorem Batch.Add_frame (a b result size : Nat) (m : Mem α) (q : Nat)
    (hq : ∀ j, j < size → q ≠ result + j) :
    Batch.Add a b result size m q = m q :=
  writeLoop_frame result (fun m i => m (a + i) + m (b + i)) size m q hq

theorem Batch.FusedMulAdd_at (a b c result size : Nat) (m : Mem α)
    (ha : NoClobber result a size) (hb : NoClobber result b size)
    (hc : NoClobber result c size) (i : Nat) (hi : i < size) :
    Batch.FusedMulAdd a b c result size m (result + i)
      = m (a + i) * m (b + i) + m (c + i) := by
  unfold Batch.FusedMulAdd
  rw [writeLoop_at result (fun m i => m (a + i) * m (b + i) + m (c + i)) size m i hi]
  rw [writeLoop_src result a _ size m ha i hi, writeLoop_src result b _ size m hb i hi,
    writeLoop_src result c _ size m hc i hi]

theorem Batch.FusedMulAdd_frame (a b c result size : Nat) (m : Mem α) (q : Nat)
    (hq : ∀ j, j < size → q ≠ result + j) :
    Batch.FusedMulAdd a b c result size m q = m q :=
  writeLoop_frame result (fun m i => m (a + i) * m (b + i) + m (c + i)) size m q hq

end Loops

/-! ## Batch and scalar primitives: the contracts -/

/-- C1: for every length `size`, input arrays `a`, `b` and output array `result`
(any placement in which the output overwrites no input element before it is
read, as with separate arrays), after the batch `Multiply(a, b, result, size)`
the cell `result[i]` holds `a[i] * b[i]`, the product of the input values, for
every `i < size`. -/
theorem Batch.Multiply_correct {α : Type u} [FloatArith α] (a b result size : Nat)
    (m : Mem α) (ha : NoClobber result a size) (hb : NoClobber result b size)
    (i : Nat) (hi : i < size) :
    Batch.Multiply a b result size m (result + i) = m (a + i) * m (b + i) :=
  Batch.Multiply_at a b result size m ha hb i hi

theorem Batch.Multiply_correct_witness :
    NoClobber 30 10 3 ∧ NoClobber 30 20 3 ∧ 1 < 3 ∧
      Batch.Multiply 10 20 30 3 rampMem (30 + 1) = rampMem (10 + 1) * rampMem (20 + 1) :=
  ⟨noClobber_of_disjoint (by unfold Disjoint2; omega),
   noClobber_of_disjoint (by unfold Disjoint2; omega), by decide,
   Batch.Multiply_correct 10 20 30 3 rampMem
     (noClobber_of_disjoint (by unfold Disjoint2; omega))
     (noClobber_of_disjoint (by unfold Disjoint2; omega)) 1 (by decide)⟩

/-- C2: for every length `size`, input arrays `a`, `b`, `c` and output array
`result` (any placement in which the output overwrites no input element before
it is read), after the batch `FusedMulAdd(a, b, c, result, size)` the cell
`result[i]` holds `a[i] * b[i] + c[i]`, the program's multiplication followed by
its addition, for every `i < size`. -/
theorem Batch.FusedMulAdd_correct {α : Type u} [FloatArith α] (a b c result size : Nat)
    (m : Mem α) (ha : NoClobber result a size) (hb : NoClobber result b size)
    (hc : NoClobber result c size) (i : Nat) (hi : i < size) :
    Batch.FusedMulAdd a b c result size m (result + i)
      = m (a + i) * m (b + i) + m (c + i) :=
  Batch.FusedMulAdd_at a b c result size m ha hb hc i hi

theorem Batch.FusedMulAdd_correct_witness :
    NoClobber 40 10 3 ∧ NoClobber 40 20 3 ∧ NoClobber 40 30 3 ∧ 2 < 3 ∧
      Batch.FusedMulAdd 10 20 30 40 3 rampMem (40 + 2)
        = rampMem (10 + 2) * rampMem (20 + 2) + rampMem (30 + 2) :=
  ⟨noClobber_of_disjoint (by unfold Disjoint2; omega),
   noClobber_of_disjoint (by unfold Disjoint2; omega),
   noClobber_of_disjoint (by unfold Disjoint2; omega), by decide,
   Batch.FusedMulAdd_correct 10 20 30 40 3 rampMem
     (noClobber_of_disjoint (by unfold Disjoint2; omega))
     (noClobber_of_disjoint (by unfold Disjoint2; omega))
     (noClobber_of_disjoint (by unfold Disjoint2; omega)) 2 (by decide)⟩

/-- C5: each scalar primitive called with the null output location returns the
memory unchanged; called with a non-null location `p` it leaves `a * b`, `a + b`
or `a * b + c` in the cell `p` and every other cell as it was. -/
theorem Scalar.null_or_write {α : Type u} [FloatArith α] (a b c : α) (m : Mem α) :
    (Scalar.Multiply a b 0 m = m ∧ Scalar.Add a b 0 m = m ∧
      Scalar.FusedMulAdd a b c 0 m = m) ∧
    ∀ p : Nat, p ≠ 0 →
      (Scalar.Multiply a b p m p = a * b ∧
        ∀ q, q ≠ p → Scalar.Multiply a b p m q = m q) ∧
      (Scalar.Add a b p m p = a + b ∧
        ∀ q, q ≠ p → Scalar.Add a b p m q = m q) ∧
      (Scalar.FusedMulAdd a b c p m p = a * b + c ∧
        ∀ q, q ≠ p → Scalar.FusedMulAdd a b c p m q = m q) := by
  refine ⟨⟨by simp [Scalar.Multiply], by simp [Scalar.Add], by simp [Scalar.FusedMulAdd]⟩, ?_⟩
  intro p hp
  refine ⟨⟨?_, ?_⟩, ⟨?_, ?_⟩, ⟨?_, ?_⟩⟩
  · simp [Scalar.Multiply, hp, Mem.write_same]
  · intro q hq
    simp [Scalar.Multiply, hp, Mem.write_other _ _ _ _ hq]
  · simp [Scalar.Add, hp, Mem.write_same]
  · intro q hq
    simp [Scalar.Add, hp, Mem.write_other _ _ _ _ hq]
  · simp [Scalar.FusedMulAdd, hp, Mem.write_same]
  · intro q hq
    simp [Scalar.FusedMulAdd, hp, Mem.write_other _ _ _ _ hq]

theorem Scalar.null_or_write_witness :
    (7 : Nat) ≠ 0 ∧ Scalar.Multiply (2 : Int) 3 0 rampMem = rampMem ∧
      Scalar.Multiply (2 : Int) 3 7 rampMem 7 = 2 * 3 ∧
      Scalar.FusedMulAdd (2 : Int) 3 4 7 rampMem 7 = 2 * 3 + 4 ∧
      Scalar.Add (2 : Int) 3 7 rampMem 8 = rampMem 8 :=
  ⟨by decide, (Scalar.null_or_write (2 : Int) 3 4 rampMem).1.1,
   ((Scalar.null_or_write (2 : Int) 3 4 rampMem).2 7 (by decide)).1.1,
   ((Scalar.null_or_write (2 : Int) 3 4 rampMem).2 7 (by decide)).2.2.1,
   ((Scalar.null_or_write (2 : Int) 3 4 rampMem).2 7 (by decide)).2.1.2 8 (by decide)⟩

/-- C6: the batch `Add(r, c, r, size)`, whose output is its first input, leaves
in `r[i]` the sum of the old `r[i]` and `c[i]` for every `i < size` (`c` placed
so that no element of it is overwritten before it is read, as with a separate
array), and that is the value the call leaves in `out[i]` when the output is a
separate buffer `out`. -/
theorem Batch.Add_in_place {α : Type u} [FloatArith α] (r c size : Nat) (m : Mem α)
    (hc : NoClobber r c size) (i : Nat) (hi : i < size) :
    Batch.Add r c r size m (r + i) = m (r + i) + m (c + i) ∧
    ∀ out : Nat, Disjoint2 out r size → Disjoint2 out c size →
      Batch.Add r c out size m (out + i) = Batch.Add r c r size m (r + i) := by
  have h1 := Batch.Add_at r c r size m (noClobber_self r size) hc i hi
  refine ⟨h1, ?_⟩
  intro out hr hoc
  rw [h1]
  exact Batch.Add_at r c out size m (noClobber_of_disjoint hr) (noClobber_of_disjoint hoc) i hi

theorem Batch.Add_in_place_witness :
    NoClobber 10 20 3 ∧ 2 < 3 ∧
      Batch.Add 10 20 10 3 rampMem (10 + 2) = rampMem (10 + 2) + rampMem (20 + 2) :=
  ⟨noClobber_of_disjoint (by unfold Disjoint2; omega), by decide,
   (Batch.Add_in_place 10 20 3 rampMem
     (noClobber_of_disjoint (by unfold Disjoint2; omega)) 2 (by decide)).1⟩

/-! ## Benchmark runner -/

section Runner

variable {σ : Type u} {T D : Type} [DoubleArith D]

/-- The loop of the runner after `k` passes: the accumulated total, the state
the operation acts on, the number of clock readings and the record of events. -/
theorem Benchmark.foldl_body (clk : Clock T D) (f : σ → σ) (k : Nat) (t : D)
    (s : BenchState σ) :
    (List.range k).foldl (fun acc _ => Benchmark.body clk f acc) (t, s)
      = ((List.range k).foldl (fun t j => t + elapsedOf clk s.reads j) t,
         { world := f^[k] s.world, reads := s.reads + 2 * k,
           trace := s.trace ++ (List.replicate k repetition).flatten }) := by
  induction k with
  | zero => simp
  | succ k ih =>
    rw [List.range_succ, List.foldl_append, ih, List.foldl_append]
    simp only [List.foldl_cons, List.foldl_nil, Benchmark.body, Benchmark.now,
      Benchmark.invoke, elapsedOf, Function.iterate_succ_apply', List.replicate_succ',
      List.flatten_append, repetition]
    simp [Nat.mul_succ, Nat.add_assoc]

theorem Benchmark.loop_eq (clk : Clock T D) (f : σ → σ) (repeats : Int)
    (s : BenchState σ) :
    Benchmark.loop clk f repeats s
      = ((List.range repeats.toNat).foldl (fun t j => t + elapsedOf clk s.reads j) 0,
         { world := f^[repeats.toNat] s.world, reads := s.reads + 2 * repeats.toNat,
           trace := s.trace ++ (List.replicate repeats.toNat repetition).flatten }) :=
  Benchmark.foldl_body clk f repeats.toNat 0 s

theorem Benchmark_eq (clk : Clock T D) (f : σ → σ) (repeats : Int)
    (s : BenchState σ) :
    Benchmark clk f repeats s
      = ((List.range repeats.toNat).foldl (fun t j => t + elapsedOf clk s.reads j) 0
           / (repeats : D),
         { world := f^[repeats.toNat] s.world, reads := s.reads + 2 * repeats.toNat,
           trace := s.trace ++ (List.replicate repeats.toNat repetition).flatten }) := by
  unfold Benchmark
  rw [Benchmark.loop_eq]

theorem count_call_repetitions (k : Nat) :
    (List.replicate k repetition).flatten.count Event.call = k := by
  induction k with
  | zero => rfl
  | succ k ih =>
    rw [List.replicate_succ, List.flatten_cons, List.count_append, ih]
    simp [repetition, Nat.add_comm]

theorem head_repetitions (k : Nat) :
    (List.replicate (k + 1) repetition).flatten.head? = some Event.now := by
  rw [List.replicate_succ, List.flatten_cons]
  rfl

theorem last_repetitions (k : Nat) :
    (List.replicate (k + 1) repetition).flatten.getLast? = some Event.now := by
  rw [List.replicate_succ', List.flatten_append, List.getLast?_append]
  rfl

end Runner

/-- C3: for every repeat count `repeats ≥ 1` and every operation `f`, the events
of `Benchmark(f, repeats)` are `repeats` repetitions of "read the clock, call
`f`, read the clock": `f` is called exactly `repeats` times, one call after
another on the state left by the previous one, and the first and the last event
are clock readings. -/
theorem Benchmark_invocations {σ : Type u} {T D : Type} [DoubleArith D]
    (clk : Clock T D) (f : σ → σ) (repeats : Int) (h : 1 ≤ repeats)
    (s : BenchState σ) :
    (Benchmark clk f repeats s).2.trace
        = s.trace ++ (List.replicate repeats.toNat repetition).flatten ∧
      (((List.replicate repeats.toNat repetition).flatten.count Event.call : Nat) : Int)
        = repeats ∧
      (List.replicate repeats.toNat repetition).flatten.head? = some Event.now ∧
      (List.replicate repeats.toNat repetition).flatten.getLast? = some Event.now ∧
      (Benchmark clk f repeats s).2.world = f^[repeats.toNat] s.world := by
  obtain ⟨k, hk⟩ : ∃ k, repeats.toNat = k + 1 := ⟨repeats.toNat - 1, by omega⟩
  rw [Benchmark_eq]
  refine ⟨rfl, ?_, ?_, ?_, rfl⟩
  · rw [count_call_repetitions]
    omega
  · rw [hk]
    exact head_repetitions k
  · rw [hk]
    exact last_repetitions k

theorem Benchmark_invocations_witness :
    (1 : Int) ≤ 2 ∧
      (Benchmark tickClock Nat.succ 2 ⟨0, 0, []⟩).2.trace
        = [Event.now, Event.call, Event.now, Event.now, Event.call, Event.now] ∧
      (Benchmark tickClock Nat.succ 2 ⟨0, 0, []⟩).2.world = 2 :=
  ⟨by decide, (Benchmark_invocations tickClock Nat.succ 2 (by decide) ⟨0, 0, []⟩).1,
   (Benchmark_invocations tickClock Nat.succ 2 (by decide) ⟨0, 0, []⟩).2.2.2.2⟩

/-- C4: for every repeat count `repeats ≥ 1`, with the clock read immediately
before and after each call, `Benchmark` returns the total of the per-repetition
elapsed times (accumulated from `0` in order of the repetitions) divided by
`repeats`, and the divisor is the conversion of a non-zero count; for
`repeats = 0` it returns the zero total divided by the conversion of zero. -/
theorem Benchmark_mean {σ : Type u} {T D : Type} [DoubleArith D]
    (clk : Clock T D) (f : σ → σ) (s : BenchState σ) :
    (∀ repeats : Int, 1 ≤ repeats →
      (Benchmark clk f repeats s).1
          = (List.range repeats.toNat).foldl
              (fun total k => total + elapsedOf clk s.reads k) 0 / (repeats : D) ∧
        ((repeats.toNat : Nat) : Int) = repeats ∧ repeats ≠ 0) ∧
    (Benchmark clk f 0 s).1 = (0 : D) / ((0 : Int) : D) := by
  constructor
  · intro repeats h
    rw [Benchmark_eq]
    exact ⟨rfl, by omega, by omega⟩
  · rw [Benchmark_eq]
    rfl

theorem Benchmark_mean_witness :
    (1 : Int) ≤ 2 ∧
      (Benchmark tickClock Nat.succ 2 ⟨0, 5, []⟩).1
        = (0 + ((6 : Int) - 5) + ((8 : Int) - 7)) / (2 : Int) :=
  ⟨by decide,
   ((Benchmark_mean tickClock Nat.succ ⟨0, 5, []⟩).1 2 (by decide)).1⟩

/-- Over the rationals the value `Benchmark` returns for `repeats ≥ 1` is the
arithmetic mean of the per-repetition elapsed times. -/
theorem Benchmark_mean_rat {σ : Type u} {T : Type} (clk : Clock T ℚ) (f : σ → σ)
    (s : BenchState σ) (repeats : Int) :
    (Benchmark clk f repeats s).1
      = (∑ k in Finset.range repeats.toNat, elapsedOf clk s.reads k) / (repeats : ℚ) := by
  have key : ∀ k : Nat,
      (List.range k).foldl (fun t j => t + elapsedOf clk s.reads j) 0
        = ∑ j in Finset.range k, elapsedOf clk s.reads j := by
    intro k
    induction k with
    | zero => rfl
    | succ k ih =>
      rw [List.range_succ, List.foldl_append, Finset.sum_range_succ, ← ih]
      rfl
  rw [Benchmark_eq]
  show _ / _ = _
  rw [key]

/-- C9 as stated fails: called without a repeat count on a counter, the runner
calls the operation `3` times, and its result differs from the one of
`Benchmark(f, 10000)`. -/
theorem BenchmarkDefault_ne_10000 :
    (BenchmarkDefault tickClock Nat.succ ⟨0, 0, []⟩).2.trace.count Event.call = 3 ∧
      (BenchmarkDefault tickClock Nat.succ ⟨0, 0, []⟩).2.world = 3 ∧
      (Benchmark tickClock Nat.succ 10000 ⟨0, 0, []⟩).2.world = 10000 ∧
      BenchmarkDefault tickClock Nat.succ ⟨0, 0, []⟩
        ≠ Benchmark tickClock Nat.succ 10000 ⟨0, 0, []⟩ := by
  have h3 : (BenchmarkDefault tickClock Nat.succ ⟨0, 0, []⟩).2.world = 3 := by
    unfold BenchmarkDefault
    rw [Benchmark_eq]
    rfl
  have h4 : (Benchmark tickClock Nat.succ 10000 ⟨0, 0, []⟩).2.world = 10000 := by
    rw [Benchmark_eq]
    simp [Nat.succ_iterate]
  refine ⟨?_, h3, h4, ?_⟩
  · unfold BenchmarkDefault
    rw [Benchmark_eq]
    rfl
  · intro h
    rw [h, h4] at h3
    exact absurd h3 (by decide)

/-- C9, amended: called without a repeat count, the runner uses the default
repeat count `3`: `Benchmark(f)` is `Benchmark(f, 3)` and calls `f` three times. -/
theorem BenchmarkDefault_three {σ : Type u} {T D : Type} [DoubleArith D]
    (clk : Clock T D) (f : σ → σ) (s : BenchState σ) :
    BenchmarkDefault clk f s = Benchmark clk f 3 s ∧
      (BenchmarkDefault clk f s).2.trace
        = s.trace ++ (repetition ++ repetition ++ repetition) ∧
      (repetition ++ repetition ++ repetition).count Event.call = 3 ∧
      (BenchmarkDefault clk f s).2.world = f (f (f s.world)) := by
  refine ⟨rfl, ?_, rfl, ?_⟩
  · unfold BenchmarkDefault
    rw [Benchmark_eq]
    rfl
  · unfold BenchmarkDefault
    rw [Benchmark_eq]
    rfl

/-! ## Driver: the batch phases -/

section Phases

variable {α : Type u} [FloatArith α]

theorem outside_of_disjoint {dst src size : Nat} (h : Disjoint2 dst src size)
    (i : Nat) (hi : i < size) : ∀ j, j < size → src + i ≠ dst + j := by
  intro j hj
  rcases h with h | h <;> omega

theorem Batch.Multiply_iterate (a b result size : Nat) (m : Mem α)
    (ha : Disjoint2 result a size) (hb : Disjoint2 result b size)
    (k : Nat) (i : Nat) (hi : i < size) :
    (Batch.Multiply a b result size)^[k + 1] m (result + i) = m (a + i) * m (b + i) := by
  rw [Function.iterate_succ_apply',
    Batch.Multiply_at a b result size _ (noClobber_of_disjoint ha)
      (noClobber_of_disjoint hb) i hi,
    iterate_frame _ result size (Batch.Multiply_frame a b result size) k m (a + i)
      (outside_of_disjoint ha i hi),
    iterate_frame _ result size (Batch.Multiply_frame a b result size) k m (b + i)
      (outside_of_disjoint hb i hi)]

theorem Batch.FusedMulAdd_iterate (a b c result size : Nat) (m : Mem α)
    (ha : Disjoint2 result a size) (hb : Disjoint2 result b size)
    (hc : Disjoint2 result c size) (k : Nat) (i : Nat) (hi : i < size) :
    (Batch.FusedMulAdd a b c result size)^[k + 1] m (result + i)
      = m (a + i) * m (b + i) + m (c + i) := by
  rw [Function.iterate_succ_apply',
    Batch.FusedMulAdd_at a b c result size _ (noClobber_of_disjoint ha)
      (noClobber_of_disjoint hb) (noClobber_of_disjoint hc) i hi,
    iterate_frame _ result size (Batch.FusedMulAdd_frame a b c result size) k m (a + i)
      (outside_of_disjoint ha i hi),
    iterate_frame _ result size (Batch.FusedMulAdd_frame a b c result size) k m (b + i)
      (outside_of_disjoint hb i hi),
    iterate_frame _ result size (Batch.FusedMulAdd_frame a b c result size) k m (c + i)
      (outside_of_disjoint hc i hi)]

/-- The in-place batch add repeated `k` times adds `c[i]` to `result[i]` `k`
times in succession. -/
theorem Batch.Add_iterate (c result size : Nat) (m : Mem α)
    (hc : Disjoint2 result c size) (k : Nat) (i : Nat) (hi : i < size) :
    (Batch.Add result c result size)^[k] m (result + i)
      = (fun x => x + m (c + i))^[k] (m (result + i)) := by
  induction k with
  | zero => rfl
  | succ k ih =>
    rw [Function.iterate_succ_apply', Function.iterate_succ_apply',
      Batch.Add_at result c result size _ (noClobber_self result size)
        (noClobber_of_disjoint hc) i hi,
      ih,
      iterate_frame _ result size (Batch.Add_frame result c result size) k m (c + i)
        (outside_of_disjoint hc i hi)]

end Phases

/-- C10: with the four buffers pairwise separate from `result` and a repeat
count `repeats ≥ 1`, after the batch multiply phase and the batch add phase the
cell `result[i]` holds `a[i] * b[i]` with `c[i]` added `repeats` times in
succession (which is `a[i] * b[i] + c[i]` when `repeats = 1`), and after the
batch fused-multiply-add phase that follows it holds `a[i] * b[i] + c[i]`, for
every `i < size`. -/
theorem Driver.batch_phases {α : Type u} [FloatArith α] {T D : Type} [DoubleArith D]
    (clk : Clock T D) (a b c result size : Nat) (repeats : Int)
    (s : BenchState (Mem α)) (hN : 1 ≤ repeats)
    (ha : Disjoint2 result a size) (hb : Disjoint2 result b size)
    (hc : Disjoint2 result c size) (i : Nat) (hi : i < size) :
    (Driver.addPhase clk c result size repeats
        (Driver.mulPhase clk a b result size repeats s).2).2.world (result + i)
      = (fun x => x + s.world (c + i))^[repeats.toNat]
          (s.world (a + i) * s.world (b + i)) ∧
    (repeats = 1 →
      (Driver.addPhase clk c result size repeats
          (Driver.mulPhase clk a b result size repeats s).2).2.world (result + i)
        = s.world (a + i) * s.world (b + i) + s.world (c + i)) ∧
    (Driver.fusedPhase clk a b c result size repeats
        (Driver.addPhase clk c result size repeats
          (Driver.mulPhase clk a b result size repeats s).2).2).2.world (result + i)
      = s.world (a + i) * s.world (b + i) + s.world (c + i) := by
  obtain ⟨k, hk⟩ : ∃ k, repeats.toNat = k + 1 := ⟨repeats.toNat - 1, by omega⟩
  have hadd : (Driver.addPhase clk c result size repeats
        (Driver.mulPhase clk a b result size repeats s).2).2.world (result + i)
      = (fun x => x + s.world (c + i))^[repeats.toNat]
          (s.world (a + i) * s.world (b + i)) := by
    unfold Driver.addPhase Driver.mulPhase
    rw [Benchmark_eq, Benchmark_eq]
    simp only
    rw [Batch.Add_iterate c result size _ hc _ i hi, hk,
      Batch.Multiply_iterate a b result size _ ha hb k i hi,
      iterate_frame _ result size (Batch.Multiply_frame a b result size) (k + 1) _ (c + i)
        (outside_of_disjoint hc i hi)]
  refine ⟨hadd, ?_, ?_⟩
  · intro h1
    rw [hadd, h1]
    rfl
  · unfold Driver.fusedPhase Driver.addPhase Driver.mulPhase
    rw [Benchmark_eq, Benchmark_eq, Benchmark_eq]
    simp only
    rw [hk, Batch.FusedMulAdd_iterate a b c result size _ ha hb hc k i hi,
      iterate_frame _ result size (Batch.Add_frame result c result size) (k + 1) _ (a + i)
        (outside_of_disjoint ha i hi),
      iterate_frame _ result size (Batch.Add_frame result c result size) (k + 1) _ (b + i)
        (outside_of_disjoint hb i hi),
      iterate_frame _ result size (Batch.Add_frame result c result size) (k + 1) _ (c + i)
        (outside_of_disjoint hc i hi),
      iterate_frame _ result size (Batch.Multiply_frame a b result size) (k + 1) _ (a + i)
        (outside_of_disjoint ha i hi),
      iterate_frame _ result size (Batch.Multiply_frame a b result size) (k + 1) _ (b + i)
        (outside_of_disjoint hb i hi),
      iterate_frame _ result size (Batch.Multiply_frame a b result size) (k + 1) _ (c + i)
        (outside_of_disjoint hc i hi)]

theorem Driver.batch_phases_witness :
    (1 : Int) ≤ 2 ∧ Disjoint2 40 10 3 ∧ Disjoint2 40 20 3 ∧ Disjoint2 40 30 3 ∧ 1 < 3 ∧
      (Driver.addPhase tickClock 30 40 3 2
          (Driver.mulPhase tickClock 10 20 40 3 2 ⟨rampMem, 0, []⟩).2).2.world (40 + 1)
        = (fun x => x + rampMem (30 + 1))^[2] (rampMem (10 + 1) * rampMem (20 + 1)) :=
  ⟨by decide, by unfold Disjoint2; omega, by unfold Disjoint2; omega,
   by unfold Disjoint2; omega, by decide,
   (Driver.batch_phases tickClock 10 20 30 40 3 2 ⟨rampMem, 0, []⟩ (by decide)
     (by unfold Disjoint2; omega) (by unfold Disjoint2; omega)
     (by unfold Disjoint2; omega) 1 (by decide)).1⟩

/-- With `repeats = 2` the add phase leaves `a[i] * b[i] + c[i] + c[i]`, which on
this memory is not `a[i] * b[i] + c[i]`. -/
theorem Driver.add_phase_accumulates_example :
    (Driver.addPhase tickClock 30 40 3 2
        (Driver.mulPhase tickClock 10 20 40 3 2 ⟨rampMem, 0, []⟩).2).2.world (40 + 1)
      = 12 * 22 + 32 + 32 ∧
    (12 * 22 + 32 + 32 : Int) ≠ 12 * 22 + 32 := by
  constructor
  · unfold Driver.addPhase Driver.mulPhase
    rw [Benchmark_eq, Benchmark_eq]
    rfl
  · decide

/-! ## Driver: the argument scan -/

namespace Driver

theorem parseLoop_eq_resolve (argv : List String) :
    ∀ (n i : Nat) (cfg : Config), argv.length - i = n →
      parseLoop argv i cfg = resolve (argv.drop i) cfg := by
  intro n
  induction n using Nat.strong_induction_on with
  | _ n ih =>
    intro i cfg hn
    rw [parseLoop]
    by_cases hi : i < argv.length
    · rw [if_pos hi, List.drop_eq_getElem_cons hi, List.getD_eq_getElem _ _ hi]
      have ih1 : ∀ cfg, parseLoop argv (i + 1) cfg = resolve (argv.drop (i + 1)) cfg :=
        fun cfg => ih (argv.length - (i + 1)) (by omega) (i + 1) cfg rfl
      by_cases hi1 : i + 1 < argv.length
      · have ih2 : ∀ cfg, parseLoop argv (i + 1 + 1) cfg
            = resolve (argv.drop (i + 1 + 1)) cfg :=
          fun cfg => ih (argv.length - (i + 1 + 1)) (by omega) (i + 1 + 1) cfg rfl
        rw [List.drop_eq_getElem_cons hi1, List.getD_eq_getElem _ _ hi1, resolve]
        simp only [hi1, and_true]
        by_cases hs : argv[i] = "--size"
        · rw [if_pos hs, if_pos hs]
          cases stoull argv[i + 1] with
          | error e => rfl
          | ok v => exact ih2 _
        · rw [if_neg hs, if_neg hs]
          by_cases hr : argv[i] = "--repeats"
          · rw [if_pos hr, if_pos hr]
            cases stoi argv[i + 1] with
            | error e => rfl
            | ok v => exact ih2 _
          · rw [if_neg hr, if_neg hr, ih1, List.drop_eq_getElem_cons hi1]
      · have hnil : argv.drop (i + 1) = [] := List.drop_eq_nil_of_le (by omega)
        simp only [hi1, and_false, if_false]
        rw [ih1, hnil]
        rfl
    · rw [if_neg hi, List.drop_eq_nil_of_le (by omega)]
      rfl

theorem parseArgs_eq_resolve (argv : List String) :
    parseArgs argv = resolve argv.tail defaults := by
  unfold parseArgs
  rw [parseLoop_eq_resolve argv _ 1 defaults rfl, List.drop_one]

theorem resolve_no_flag (args : List String) (cfg : Config)
    (hs : "--size" ∉ args) (hr : "--repeats" ∉ args) : resolve args cfg = .ok cfg := by
  induction args with
  | nil => rfl
  | cons t rest ih =>
    cases rest with
    | nil => rfl
    | cons v rest =>
      have hts : t ≠ "--size" := fun h => hs (h ▸ List.mem_cons_self _ _)
      have htr : t ≠ "--repeats" := fun h => hr (h ▸ List.mem_cons_self _ _)
      rw [resolve, if_neg hts, if_neg htr]
      exact ih (fun h => hs (List.mem_cons_of_mem _ h)) (fun h => hr (List.mem_cons_of_mem _ h))

end Driver

namespace Driver

theorem stoull_of_lacksNumber (t : String) (h : lacksNumber t = true) :
    stoull t = .error .invalid_argument := by
  unfold lacksNumber at h
  simp [stoull, h]

theorem stoi_of_lacksNumber (t : String) (h : lacksNumber t = true) :
    stoi t = .error .invalid_argument := by
  unfold lacksNumber at h
  simp [stoi, h]

theorem lacksNumber_of_isFlag (t : String) (h : isFlag t = true) : lacksNumber t = true := by
  unfold isFlag at h
  rcases Bool.or_eq_true_iff.1 h with h | h
  · rw [of_decide_eq_true h]
    rfl
  · rw [of_decide_eq_true h]
    rfl

/-- A flag followed by a token without a number makes the scan fail, wherever
the pair stands in the argument list. -/
theorem resolve_fails (t v : String) (post : List String) (ht : isFlag t = true)
    (hv : lacksNumber v = true) :
    ∀ (n : Nat) (pre : List String) (cfg : Config), pre.length = n →
      ∃ e, resolve (pre ++ t :: v :: post) cfg = .error e := by
  have base : ∀ cfg, ∃ e, resolve (t :: v :: post) cfg = .error e := by
    intro cfg
    rw [resolve]
    by_cases hs : t = "--size"
    · rw [if_pos hs, stoull_of_lacksNumber v hv]
      exact ⟨_, rfl⟩
    · have hr : t = "--repeats" := by
        unfold isFlag at ht
        rcases Bool.or_eq_true_iff.1 ht with h | h
        · exact absurd (of_decide_eq_true h) hs
        · exact of_decide_eq_true h
      rw [if_neg hs, if_pos hr, stoi_of_lacksNumber v hv]
      exact ⟨_, rfl⟩
  intro n
  induction n using Nat.strong_induction_on with
  | _ n ih =>
    intro pre cfg hn
    match pre, hn with
    | [], _ => exact base cfg
    | [x], _ =>
      rw [List.singleton_append, resolve]
      by_cases hs : x = "--size"
      · rw [if_pos hs, stoull_of_lacksNumber t (lacksNumber_of_isFlag t ht)]
        exact ⟨_, rfl⟩
      · rw [if_neg hs]
        by_cases hr : x = "--repeats"
        · rw [if_pos hr, stoi_of_lacksNumber t (lacksNumber_of_isFlag t ht)]
          exact ⟨_, rfl⟩
        · rw [if_neg hr]
          exact base cfg
    | x :: y :: pre2, hn =>
      have hlen : (x :: y :: pre2).length = n := hn
      simp only [List.length_cons] at hlen
      rw [List.cons_append, List.cons_append, resolve]
      by_cases hs : x = "--size"
      · rw [if_pos hs]
        cases stoull y with
        | error e => exact ⟨e, rfl⟩
        | ok k => exact ih pre2.length (by omega) pre2 _ rfl
      · rw [if_neg hs]
        by_cases hr : x = "--repeats"
        · rw [if_pos hr]
          cases stoi y with
          | error e => exact ⟨e, rfl⟩
          | ok k => exact ih pre2.length (by omega) pre2 _ rfl
        · rw [if_neg hr]
          exact ih (y :: pre2).length (by simp only [List.length_cons]; omega)
            (y :: pre2) cfg rfl

theorem parseArgs_fails (argv : List String) (i : Nat) (h1 : 1 ≤ i)
    (h2 : i + 1 < argv.length) (hflag : isFlag (argv.getD i "") = true)
    (hbad : lacksNumber (argv.getD (i + 1) "") = true) :
    ∃ e, parseArgs argv = .error e := by
  have hi : i < argv.length := by omega
  rw [List.getD_eq_getElem _ _ hi] at hflag
  rw [List.getD_eq_getElem _ _ h2] at hbad
  have hsplit : argv.tail
      = (argv.tail.take (i - 1)) ++ argv[i] :: argv[i + 1] :: argv.drop (i + 1 + 1) := by
    conv_lhs => rw [← List.take_append_drop (i - 1) argv.tail]
    congr 1
    rw [← List.drop_one, List.drop_drop, show 1 + (i - 1) = i by omega,
      List.drop_eq_getElem_cons hi, List.drop_eq_getElem_cons h2]
  rw [parseArgs_eq_resolve, hsplit]
  exact resolve_fails _ _ _ hflag hbad _ _ _ rfl

end Driver

/-- C7: the scan of `main` resolves the settings as the specification words it:
from the defaults `(10000, 10000)`, left to right over the tokens after the
program name, a `--size` or `--repeats` that has a following token consumes it
as its value and sets its setting, and every other token is skipped.  With no
token equal to a flag the result is `(10000, 10000)`, for
`--size 100 --repeats 50` it is `(100, 50)`, and in
`--size 1 x --size 2 --repeats` the last `--size` wins while `x` and the final
flag without a value are skipped. -/
theorem Driver.parseArgs_resolves (argv : List String) :
    Driver.parseArgs argv = Driver.resolve argv.tail Driver.defaults ∧
    ("--size" ∉ argv.tail → "--repeats" ∉ argv.tail →
      Driver.parseArgs argv = .ok { size := 10000, repeats := 10000 }) ∧
    Driver.parseArgs ["prog", "--size", "100", "--repeats", "50"]
      = .ok { size := 100, repeats := 50 } ∧
    Driver.parseArgs ["prog", "--size", "1", "x", "--size", "2", "--repeats"]
      = .ok { size := 2, repeats := 10000 } := by
  refine ⟨Driver.parseArgs_eq_resolve argv, ?_, ?_, ?_⟩
  · intro hs hr
    rw [Driver.parseArgs_eq_resolve]
    exact Driver.resolve_no_flag _ _ hs hr
  · rw [Driver.parseArgs_eq_resolve]
    rfl
  · rw [Driver.parseArgs_eq_resolve]
    rfl

theorem Driver.parseArgs_resolves_witness :
    "--size" ∉ ["prog", "-v"].tail ∧
      "--repeats" ∉ ["prog", "-v"].tail ∧
      Driver.parseArgs ["prog", "-v"] = .ok { size := 10000, repeats := 10000 } :=
  ⟨by decide, by decide,
   (Driver.parseArgs_resolves ["prog", "-v"]).2.1 (by decide) (by decide)⟩

/-- C8 as stated fails: `12abc` is not a well-formed decimal integer, yet
`--size 12abc` resolves the configuration `(12, 10000)` and the driver goes on
to allocate and report. -/
theorem Driver.malformed_value_accepted :
    Driver.isDecimalInteger "12abc" = false ∧
      Driver.parseArgs ["prog", "--size", "12abc"] = .ok { size := 12, repeats := 10000 } ∧
      Driver.run ["prog", "--size", "12abc"]
        = [Driver.Step.allocate 12, Driver.Step.measure 10000, Driver.Step.report] := by
  have h : Driver.parseArgs ["prog", "--size", "12abc"]
      = .ok { size := 12, repeats := 10000 } := by
    rw [Driver.parseArgs_eq_resolve]
    rfl
  refine ⟨by rfl, h, ?_⟩
  unfold Driver.run
  rw [h]

/-- C8, amended: when a `--size` or `--repeats` flag among the arguments is
followed by a token in which the numeric conversion finds no number (after
optional white space and sign it does not start with a decimal digit, as
`abc`), the scan fails with a parsing error and the driver ends there, with no
buffer allocated and no report printed. -/
theorem Driver.parse_error_terminates (argv : List String) (i : Nat) (h1 : 1 ≤ i)
    (h2 : i + 1 < argv.length) (hflag : Driver.isFlag (argv.getD i "") = true)
    (hbad : Driver.lacksNumber (argv.getD (i + 1) "") = true) :
    ∃ e, Driver.parseArgs argv = .error e ∧ Driver.run argv = [Driver.Step.terminate e] := by
  obtain ⟨e, he⟩ := Driver.parseArgs_fails argv i h1 h2 hflag hbad
  refine ⟨e, he, ?_⟩
  unfold Driver.run
  rw [he]

theorem Driver.parse_error_terminates_witness :
    Driver.isFlag (["prog", "--size", "abc"].getD 1 "") = true ∧
      Driver.lacksNumber (["prog", "--size", "abc"].getD (1 + 1) "") = true ∧
      ∃ e, Driver.parseArgs ["prog", "--size", "abc"] = .error e ∧
        Driver.run ["prog", "--size", "abc"] = [Driver.Step.terminate e] :=
  ⟨by rfl, by rfl,
   Driver.parse_error_terminates ["prog", "--size", "abc"] 1 (by decide) (by decide)
     (by rfl) (by rfl)⟩
